import Mathlib

/-!
# Ethtool support of the Altera Triple-Speed Ethernet MAC driver

A shallow embedding of `drivers/net/ethernet/altera/altera_tse_ethtool.c`.

* Memory-mapped registers are a function from byte addresses to values; `ioread32`
  reads one 32-bit word and has no effect on the registers.
* Caller-supplied output buffers are a memory function together with the list of
  the indices stored to, in program order.
* The PHY layer (`phy_ethtool_gset`, `phy_ethtool_sset`) lives in another file of
  the kernel and is a parameter; every call made to it is recorded.
* The error numbers, the string-set selector and the register offsets of
  `struct altera_tse_mac` come from headers that are not part of the file
  (`errno.h`, `linux/ethtool.h`, `altera_tse.h`) and are parameters. The buffer sizes
  of `linux/ethtool.h` are fixed at 32.
* Arguments a function never uses (`dummy` of `tse_fill_stats`, `regs` of
  `tse_get_regs`) are left out.
-/

namespace AlteraTse

/-! ## Constants -/

/-- The macro `TSE_STATS_LEN`. -/
def TSE_STATS_LEN : Nat := 31

/-- The macro `TSE_NUM_REGS`. -/
def TSE_NUM_REGS : Nat := 128

/-- The value of `sizeof(u32)`. -/
def sizeof_u32 : Nat := 4

/-- Modelled from the spec: the macro `ETH_GSTRING_LEN` of `linux/ethtool.h`, a header
that is not part of the file; the length of one statistic name slot, 32 bytes. -/
def ETH_GSTRING_LEN : Nat := 32

/-- Modelled from the spec: the macro `ETHTOOL_FWVERS_LEN` of `linux/ethtool.h`, a
header that is not part of the file; the size of the `fw_version` field, 32 bytes. -/
def ETHTOOL_FWVERS_LEN : Nat := 32

/-- Modelled from the spec: the size of the `driver`, `version` and `bus_info` fields of
`struct ethtool_drvinfo` (declared in `linux/ethtool.h`), 32 bytes each. -/
def DRVINFO_FIELD_LEN : Nat := 32

/-- Constants of kernel headers the file uses by name only: the two error numbers and
the string-set selector. Their values are parameters of the model. -/
structure kernel_consts where
  ENODEV : Int
  EOPNOTSUPP : Int
  ETH_SS_STATS : Int

/-! ## Device state -/

/-- The fields of `struct altera_tse_private` the file touches. `mac_dev` is the address
of the memory-mapped MAC registers, `phydev` the attached PHY (`none` for `NULL`),
`msg_enable` the debug verbosity. -/
structure altera_tse_private (φ : Type) where
  mac_dev : Nat
  phydev : Option φ
  msg_enable : Nat

/-- A network device; only its private area matters here. -/
structure net_device (φ : Type) where
  priv : altera_tse_private φ

/-- The accessor `netdev_priv`. -/
def netdev_priv {φ : Type} (dev : net_device φ) : altera_tse_private φ := dev.priv

/-! ## The PHY layer -/

/-- The two entry points of the PHY layer. Each receives the PHY device and the
command, and yields its return value together with the PHY device and the command as
it leaves them. -/
structure phy_layer (φ κ : Type) where
  phy_ethtool_gset : φ → κ → Int × φ × κ
  phy_ethtool_sset : φ → κ → Int × φ × κ

/-- One recorded call into the PHY layer, with the arguments passed. -/
inductive phy_call (φ κ : Type) where
  | gset (phydev : φ) (cmd : κ)
  | sset (phydev : φ) (cmd : κ)
  deriving DecidableEq

/-- What a settings operation leaves behind: its return value, the device, the
caller's command and the calls it made into the PHY layer, in order. -/
structure settings_result (φ κ : Type) where
  ret : Int
  dev : net_device φ
  cmd : κ
  calls : List (phy_call φ κ)

/-- The function `tse_get_settings`. -/
def tse_get_settings {φ κ : Type} (k : kernel_consts) (phy : phy_layer φ κ)
    (dev : net_device φ) (cmd : κ) : settings_result φ κ :=
  let priv := netdev_priv dev
  let phydev := priv.phydev
  match phydev with
  | none => { ret := -k.ENODEV, dev := dev, cmd := cmd, calls := [] }
  | some p =>
    let r := phy.phy_ethtool_gset p cmd
    { ret := r.1
      dev := { dev with priv := { priv with phydev := some r.2.1 } }
      cmd := r.2.2
      calls := [phy_call.gset p cmd] }

/-- The function `tse_set_settings`. -/
def tse_set_settings {φ κ : Type} (k : kernel_consts) (phy : phy_layer φ κ)
    (dev : net_device φ) (cmd : κ) : settings_result φ κ :=
  let priv := netdev_priv dev
  let phydev := priv.phydev
  match phydev with
  | none => { ret := -k.ENODEV, dev := dev, cmd := cmd, calls := [] }
  | some p =>
    let r := phy.phy_ethtool_sset p cmd
    { ret := r.1
      dev := { dev with priv := { priv with phydev := some r.2.1 } }
      cmd := r.2.2
      calls := [phy_call.sset p cmd] }

/-! ## String-set count and message level -/

/-- The function `tse_sset_count`: the return value and the device as it is left. -/
def tse_sset_count {φ : Type} (k : kernel_consts) (dev : net_device φ) (sset : Int) :
    Int × net_device φ :=
  if sset = k.ETH_SS_STATS then ((TSE_STATS_LEN : Int), dev)
  else (-k.EOPNOTSUPP, dev)

/-- The function `tse_get_msglevel`: the `u32` returned and the device as it is left. -/
def tse_get_msglevel {φ : Type} (dev : net_device φ) : Nat × net_device φ :=
  let priv := netdev_priv dev
  (priv.msg_enable % 2 ^ 32, dev)

/-- The function `tse_set_msglevel`; `data` is a `uint32_t`. -/
def tse_set_msglevel {φ : Type} (dev : net_device φ) (data : Nat) : net_device φ :=
  let priv := netdev_priv dev
  { dev with priv := { priv with msg_enable := data % 2 ^ 32 } }

/-! ## Memory-mapped registers and output buffers -/

/-- Modelled from the spec: the kernel accessor `ioread32`, which is not part of the
file; it reads the 32-bit hardware register at byte address `addr` of the register
space `io`. -/
def ioread32 (io : Nat → Nat) (addr : Nat) : Nat := io addr % 2 ^ 32

/-- The registers of `struct altera_tse_mac` the file reads by name. -/
inductive altera_tse_mac where
  | megacore_revision
  | frames_transmitted_ok
  | frames_received_ok
  | frames_check_sequence_errors
  | alignment_errors
  | msb_octets_transmitted_ok
  | octets_transmitted_ok
  | msb_octets_received_ok
  | octets_received_ok
  | tx_pause_mac_ctrl_frames
  | rx_pause_mac_ctrl_frames
  | if_in_errors
  | if_out_errors
  | if_in_ucast_pkts
  | if_in_multicast_pkts
  | if_in_broadcast_pkts
  | if_out_discards
  | if_out_ucast_pkts
  | if_out_multicast_pkts
  | if_out_broadcast_pkts
  | ether_stats_drop_events
  | msb_ether_stats_octets
  | ether_stats_octets
  | ether_stats_pkts
  | ether_stats_undersize_pkts
  | ether_stats_oversize_pkts
  | ether_stats_pkts_64_octets
  | ether_stats_pkts_65to127_octets
  | ether_stats_pkts_128to255_octets
  | ether_stats_pkts_256to511_octets
  | ether_stats_pkts_512to1023_octets
  | ether_stats_pkts_1024to1518_octets
  | ether_stats_pkts_1519tox_octets
  | ether_stats_jabbers
  | ether_stats_fragments
  deriving DecidableEq

/-- The address `&mac->f`, for a MAC at address `mac`; the byte offset of each register
inside `struct altera_tse_mac` (declared in `altera_tse.h`) is the parameter `off`. -/
def field_addr (off : altera_tse_mac → Nat) (mac : Nat) (f : altera_tse_mac) : Nat :=
  mac + off f

/-- The value `ioread32(&mac->f)`, for a MAC at address `mac`. -/
def read_mac (off : altera_tse_mac → Nat) (io : Nat → Nat) (mac : Nat)
    (f : altera_tse_mac) : Nat :=
  ioread32 io (field_addr off mac f)

/-- A caller-supplied output buffer: its cells, and the indices stored to so far, in
program order. -/
structure out_buf where
  mem : Nat → Nat
  writes : List Nat

/-- The assignment `buf[i] = v` on a buffer whose cells are `w` bits wide. -/
def out_buf.store (w : Nat) (b : out_buf) (i v : Nat) : out_buf :=
  { mem := fun j => if j = i then v % 2 ^ w else b.mem j
    writes := b.writes ++ [i] }

/-- Modelled from the spec: the kernel routine `memcpy`, which is not part of the file;
the call `memcpy(buf, src, n)` stores the first `n` bytes of the object `src` to the
bytes `0 .. n - 1` of `buf`. -/
def memcpy (b : out_buf) (src : List Nat) (n : Nat) : out_buf :=
  { mem := fun j => if j < n then src.getD j 0 % 2 ^ 8 else b.mem j
    writes := b.writes ++ List.range n }

/-! ## Statistic names -/

/-- The initialisers of the table `stat_gstrings`, in source order. -/
def stat_gstrings : List String :=
  [ "tx_packets",
    "rx_packets",
    "rx_crc_errors",
    "rx_align_errors",
    "tx_bytes",
    "rx_bytes",
    "tx_pause",
    "rx_pause",
    "rx_errors",
    "tx_errors",
    "rx_unicast",
    "rx_multicast",
    "rx_broadcast",
    "tx_discards",
    "tx_unicast",
    "tx_multicast",
    "tx_broadcast",
    "ether_drops",
    "rx_total_bytes",
    "rx_total_packets",
    "rx_undersize",
    "rx_oversize",
    "rx_64_bytes",
    "rx_65_127_bytes",
    "rx_128_255_bytes",
    "rx_256_511_bytes",
    "rx_512_1023_bytes",
    "rx_1024_1518_bytes",
    "rx_gte_1519_bytes",
    "rx_jabbers",
    "rx_runts" ]

/-- One row of a `char [][ETH_GSTRING_LEN]` array initialised with the literal `s`: the
characters of `s`, then zero bytes up to the row length. -/
def gstring_row (s : String) : List Nat :=
  s.toList.map Char.toNat ++ List.replicate (ETH_GSTRING_LEN - s.length) 0

/-- The object `stat_gstrings` as it lies in memory: its rows one after the other. -/
def stat_gstrings_bytes : List Nat :=
  (stat_gstrings.map gstring_row).flatten

/-- The function `tse_gstrings`. -/
def tse_gstrings {φ : Type} (_dev : net_device φ) (_stringset : Nat) (buf : out_buf) :
    out_buf :=
  memcpy buf stat_gstrings_bytes (TSE_STATS_LEN * ETH_GSTRING_LEN)

/-! ## Statistics -/

/-- The function `tse_fill_stats`; `buf` is an array of `u64`. -/
def tse_fill_stats {φ : Type} (off : altera_tse_mac → Nat) (io : Nat → Nat)
    (dev : net_device φ) (buf : out_buf) : out_buf :=
  let priv := netdev_priv dev
  let mac := priv.mac_dev
  let rd := read_mac off io mac
  let buf := buf.store 64 0 (rd .frames_transmitted_ok)
  let buf := buf.store 64 1 (rd .frames_received_ok)
  let buf := buf.store 64 2 (rd .frames_check_sequence_errors)
  let buf := buf.store 64 3 (rd .alignment_errors)
  let ext := (rd .msb_octets_transmitted_ok <<< 32) % 2 ^ 64
  let ext := ext ||| rd .octets_transmitted_ok
  let buf := buf.store 64 4 ext
  let ext := (rd .msb_octets_received_ok <<< 32) % 2 ^ 64
  let ext := ext ||| rd .octets_received_ok
  let buf := buf.store 64 5 ext
  let buf := buf.store 64 6 (rd .tx_pause_mac_ctrl_frames)
  let buf := buf.store 64 7 (rd .rx_pause_mac_ctrl_frames)
  let buf := buf.store 64 8 (rd .if_in_errors)
  let buf := buf.store 64 9 (rd .if_out_errors)
  let buf := buf.store 64 10 (rd .if_in_ucast_pkts)
  let buf := buf.store 64 11 (rd .if_in_multicast_pkts)
  let buf := buf.store 64 12 (rd .if_in_broadcast_pkts)
  let buf := buf.store 64 13 (rd .if_out_discards)
  let buf := buf.store 64 14 (rd .if_out_ucast_pkts)
  let buf := buf.store 64 15 (rd .if_out_multicast_pkts)
  let buf := buf.store 64 16 (rd .if_out_broadcast_pkts)
  let buf := buf.store 64 17 (rd .ether_stats_drop_events)
  let ext := (rd .msb_ether_stats_octets <<< 32) % 2 ^ 64
  let ext := ext ||| rd .ether_stats_octets
  let buf := buf.store 64 18 ext
  let buf := buf.store 64 19 (rd .ether_stats_pkts)
  let buf := buf.store 64 20 (rd .ether_stats_undersize_pkts)
  let buf := buf.store 64 21 (rd .ether_stats_oversize_pkts)
  let buf := buf.store 64 22 (rd .ether_stats_pkts_64_octets)
  let buf := buf.store 64 23 (rd .ether_stats_pkts_65to127_octets)
  let buf := buf.store 64 24 (rd .ether_stats_pkts_128to255_octets)
  let buf := buf.store 64 25 (rd .ether_stats_pkts_256to511_octets)
  let buf := buf.store 64 26 (rd .ether_stats_pkts_512to1023_octets)
  let buf := buf.store 64 27 (rd .ether_stats_pkts_1024to1518_octets)
  let buf := buf.store 64 28 (rd .ether_stats_pkts_1519tox_octets)
  let buf := buf.store 64 29 (rd .ether_stats_jabbers)
  let buf := buf.store 64 30 (rd .ether_stats_fragments)
  buf

/-! ## Register dump -/

/-- The conversion of an unsigned value to `int`. -/
def to_int (n : Nat) : Int :=
  if n % 2 ^ 32 < 2 ^ 31 then (n % 2 ^ 32 : Nat) else (n % 2 ^ 32 : Nat) - 2 ^ 32

/-- The function `tse_reglen`. -/
def tse_reglen {φ : Type} (_dev : net_device φ) : Int :=
  to_int (TSE_NUM_REGS * sizeof_u32)

/-- The loop of `tse_get_regs`, entered with the counter at `i`: the final counter and
the buffer of `u32` as it is left. -/
def tse_get_regs_loop (io : Nat → Nat) (tse_mac_regs : Nat) (i : Nat) (buf : out_buf) :
    Nat × out_buf :=
  if i < TSE_NUM_REGS then
    tse_get_regs_loop io tse_mac_regs (i + 1)
      (buf.store 32 i (ioread32 io (tse_mac_regs + sizeof_u32 * i)))
  else (i, buf)
termination_by TSE_NUM_REGS - i

/-- The function `tse_get_regs`: the final loop counter and the buffer. -/
def tse_get_regs {φ : Type} (io : Nat → Nat) (dev : net_device φ) (regbuf : out_buf) :
    Nat × out_buf :=
  let priv := netdev_priv dev
  let tse_mac_regs := priv.mac_dev
  let buf := regbuf
  tse_get_regs_loop io tse_mac_regs 0 buf

/-! ## Driver information -/

/-- The four text fields of `struct ethtool_drvinfo` the file fills, each the text
before the terminating NUL. -/
structure ethtool_drvinfo where
  driver : List Char
  version : List Char
  fw_version : List Char
  bus_info : List Char

/-- Modelled from the spec: the conversion `%d` of the kernel formatter, which is not
part of the file; the decimal text of a 32-bit argument read as an `int`. -/
def fmt_d (v : Nat) : List Char :=
  if v % 2 ^ 32 < 2 ^ 31 then Nat.toDigits 10 (v % 2 ^ 32)
  else '-' :: Nat.toDigits 10 (2 ^ 32 - v % 2 ^ 32)

/-- Modelled from the spec: the kernel routine `snprintf`, which is not part of the
file; of the formatted text `s` it stores at most `size - 1` characters (a NUL
follows). -/
def snprintf (size : Nat) (s : List Char) : List Char := s.take (size - 1)

/-- The function `tse_get_drvinfo`; `strcpy` and `sprintf` of a fixed text store that
text. -/
def tse_get_drvinfo {φ : Type} (off : altera_tse_mac → Nat) (io : Nat → Nat)
    (dev : net_device φ) (info : ethtool_drvinfo) : ethtool_drvinfo :=
  let priv := netdev_priv dev
  let rev := read_mac off io priv.mac_dev .megacore_revision
  let info := { info with driver := "Altera TSE MAC IP Driver".toList }
  let info := { info with version := "v8.0".toList }
  let text := "v".toList ++ fmt_d (rev &&& 0xFFFF) ++ ".".toList ++
    fmt_d ((rev &&& 0xFFFF0000) >>> 16)
  let info := { info with fw_version := snprintf ETHTOOL_FWVERS_LEN text }
  let info := { info with bus_info := "platform".toList }
  info

/-! ## Concrete inputs used to exercise the theorems -/

/-- The usual Linux values of the three constants. -/
def linux_consts : kernel_consts := { ENODEV := 19, EOPNOTSUPP := 95, ETH_SS_STATS := 1 }

/-- A PHY layer whose `gset` fills the command and succeeds and whose `sset` rejects
every request with `-EINVAL`. -/
def phy_rejecting : phy_layer Nat Nat :=
  { phy_ethtool_gset := fun p _ => (0, p, 1000)
    phy_ethtool_sset := fun p c => (-22, p, c) }

/-- A device without a PHY. -/
def dev_no_phy : net_device Nat :=
  { priv := { mac_dev := 4096, phydev := none, msg_enable := 3 } }

/-- A device with PHY number 5 attached. -/
def dev_with_phy : net_device Nat :=
  { priv := { mac_dev := 4096, phydev := some 5, msg_enable := 3 } }

/-! ## Link settings -/

/-- C1: when no PHY is attached, `tse_get_settings` and `tse_set_settings` both return
`-ENODEV`, make no call into the PHY layer, and leave the device and the caller's
command as they were. -/
theorem tse_settings_without_phy {φ κ : Type} (k : kernel_consts) (phy : phy_layer φ κ)
    (dev : net_device φ) (cmd : κ) (h : (netdev_priv dev).phydev = none) :
    ((tse_get_settings k phy dev cmd).ret = -k.ENODEV ∧
      (tse_get_settings k phy dev cmd).calls = [] ∧
      (tse_get_settings k phy dev cmd).dev = dev ∧
      (tse_get_settings k phy dev cmd).cmd = cmd) ∧
    ((tse_set_settings k phy dev cmd).ret = -k.ENODEV ∧
      (tse_set_settings k phy dev cmd).calls = [] ∧
      (tse_set_settings k phy dev cmd).dev = dev ∧
      (tse_set_settings k phy dev cmd).cmd = cmd) := by
  simp only [netdev_priv] at h
  simp [tse_get_settings, tse_set_settings, netdev_priv, h]

/-- Witness of C1 on the device without a PHY. -/
theorem tse_settings_without_phy_witness :
    (netdev_priv dev_no_phy).phydev = none ∧
    (tse_get_settings linux_consts phy_rejecting dev_no_phy 7).ret = -19 ∧
    (tse_set_settings linux_consts phy_rejecting dev_no_phy 7).ret = -19 ∧
    (tse_set_settings linux_consts phy_rejecting dev_no_phy 7).calls = [] :=
  have t := tse_settings_without_phy linux_consts phy_rejecting dev_no_phy 7 rfl
  ⟨rfl, t.1.1, t.2.1, t.2.2.1⟩

/-- C2, refuted as stated: with PHY 5 attached and a PHY layer that rejects the request,
`tse_set_settings` returns `-22`, not `0`. -/
theorem tse_set_settings_phy_failure :
    (netdev_priv dev_with_phy).phydev = some 5 ∧
    (tse_set_settings linux_consts phy_rejecting dev_with_phy 7).ret = -22 ∧
    (tse_set_settings linux_consts phy_rejecting dev_with_phy 7).ret ≠ 0 := by
  refine ⟨rfl, rfl, ?_⟩
  decide

/-- C2, amended: with a PHY attached, `tse_get_settings` returns `0` exactly when
`phy_ethtool_gset` does and `tse_set_settings` returns `0` exactly when
`phy_ethtool_sset` does; the adapter adds no failure of its own. -/
theorem tse_settings_succeed_iff_phy {φ κ : Type} (k : kernel_consts)
    (phy : phy_layer φ κ) (dev : net_device φ) (cmd : κ) (p : φ)
    (h : (netdev_priv dev).phydev = some p) :
    ((tse_get_settings k phy dev cmd).ret = 0 ↔ (phy.phy_ethtool_gset p cmd).1 = 0) ∧
    ((tse_set_settings k phy dev cmd).ret = 0 ↔ (phy.phy_ethtool_sset p cmd).1 = 0) := by
  simp only [netdev_priv] at h
  simp [tse_get_settings, tse_set_settings, netdev_priv, h]

/-- Witness of the amended C2: the `gset` of the rejecting PHY layer succeeds, and so
does `tse_get_settings`. -/
theorem tse_settings_succeed_iff_phy_witness :
    (netdev_priv dev_with_phy).phydev = some 5 ∧
    (tse_get_settings linux_consts phy_rejecting dev_with_phy 7).ret = 0 :=
  ⟨rfl, (tse_settings_succeed_iff_phy linux_consts phy_rejecting dev_with_phy 7 5 rfl).1.2
    rfl⟩

/-- C3: with PHY `p` attached, `tse_get_settings` makes exactly one call,
`phy_ethtool_gset p cmd`, and returns its value; `tse_set_settings` makes exactly one
call, `phy_ethtool_sset p cmd`, and returns its value. The command handed back and the
PHY are as the PHY layer left them, and the other device fields are untouched. -/
theorem tse_settings_forward {φ κ : Type} (k : kernel_consts) (phy : phy_layer φ κ)
    (dev : net_device φ) (cmd : κ) (p : φ) (h : (netdev_priv dev).phydev = some p) :
    ((tse_get_settings k phy dev cmd).ret = (phy.phy_ethtool_gset p cmd).1 ∧
      (tse_get_settings k phy dev cmd).calls = [phy_call.gset p cmd] ∧
      (tse_get_settings k phy dev cmd).cmd = (phy.phy_ethtool_gset p cmd).2.2 ∧
      (tse_get_settings k phy dev cmd).dev.priv.phydev =
        some (phy.phy_ethtool_gset p cmd).2.1 ∧
      (tse_get_settings k phy dev cmd).dev.priv.mac_dev = dev.priv.mac_dev ∧
      (tse_get_settings k phy dev cmd).dev.priv.msg_enable = dev.priv.msg_enable) ∧
    ((tse_set_settings k phy dev cmd).ret = (phy.phy_ethtool_sset p cmd).1 ∧
      (tse_set_settings k phy dev cmd).calls = [phy_call.sset p cmd] ∧
      (tse_set_settings k phy dev cmd).cmd = (phy.phy_ethtool_sset p cmd).2.2 ∧
      (tse_set_settings k phy dev cmd).dev.priv.phydev =
        some (phy.phy_ethtool_sset p cmd).2.1 ∧
      (tse_set_settings k phy dev cmd).dev.priv.mac_dev = dev.priv.mac_dev ∧
      (tse_set_settings k phy dev cmd).dev.priv.msg_enable = dev.priv.msg_enable) := by
  simp only [netdev_priv] at h
  simp [tse_get_settings, tse_set_settings, netdev_priv, h]

/-- Witness of C3 on the device with PHY 5. -/
theorem tse_settings_forward_witness :
    (netdev_priv dev_with_phy).phydev = some 5 ∧
    (tse_get_settings linux_consts phy_rejecting dev_with_phy 7).calls =
      [phy_call.gset 5 7] ∧
    (tse_get_settings linux_consts phy_rejecting dev_with_phy 7).cmd = 1000 ∧
    (tse_set_settings linux_consts phy_rejecting dev_with_phy 7).ret = -22 :=
  have t := tse_settings_forward linux_consts phy_rejecting dev_with_phy 7 5 rfl
  ⟨rfl, t.1.2.1, t.1.2.2.1, t.2.1⟩

/-! ## String-set count -/

/-- C6: for a positive `EOPNOTSUPP`, `tse_sset_count` returns 31 exactly when the
requested set is `ETH_SS_STATS`, returns the negative `-EOPNOTSUPP` for every other
set, hands the device back unchanged, and returns the same value on every device. -/
theorem tse_sset_count_spec {φ ψ : Type} (k : kernel_consts) (dev : net_device φ)
    (dev2 : net_device ψ) (sset : Int) (hpos : 0 < k.EOPNOTSUPP) :
    ((tse_sset_count k dev sset).1 = 31 ↔ sset = k.ETH_SS_STATS) ∧
    (sset ≠ k.ETH_SS_STATS →
      (tse_sset_count k dev sset).1 = -k.EOPNOTSUPP ∧ (tse_sset_count k dev sset).1 < 0) ∧
    (tse_sset_count k dev sset).2 = dev ∧
    (tse_sset_count k dev2 sset).1 = (tse_sset_count k dev sset).1 := by
  unfold tse_sset_count TSE_STATS_LEN
  by_cases hs : sset = k.ETH_SS_STATS
  · simp [hs]
  · have hne : ¬ (-k.EOPNOTSUPP = 31) := by omega
    have hneg : -k.EOPNOTSUPP < 0 := by omega
    simp [hs, hne, hneg, hpos]

/-- Witness of C6 with the Linux constants. -/
theorem tse_sset_count_spec_witness :
    (0 : Int) < linux_consts.EOPNOTSUPP ∧
    (tse_sset_count linux_consts dev_no_phy 1).1 = 31 ∧
    (tse_sset_count linux_consts dev_no_phy 0).1 = -95 :=
  have h : (0 : Int) < linux_consts.EOPNOTSUPP := by decide
  ⟨h, (tse_sset_count_spec linux_consts dev_no_phy dev_with_phy 1 h).1.2 rfl,
    ((tse_sset_count_spec linux_consts dev_no_phy dev_with_phy 0 h).2.1 (by decide)).1⟩

/-! ## Message level -/

/-- C7: for a 32-bit `d`, reading the message level after setting it to `d` gives `d`;
setting keeps `mac_dev` and `phydev`, and its result does not depend on the level held
before; reading hands the device back unchanged; setting twice is setting the last
value. -/
theorem tse_msglevel_round_trip {φ : Type} (dev : net_device φ) (d d0 : Nat)
    (hd : d < 2 ^ 32) :
    (tse_get_msglevel (tse_set_msglevel dev d)).1 = d ∧
    (tse_set_msglevel dev d).priv.mac_dev = dev.priv.mac_dev ∧
    (tse_set_msglevel dev d).priv.phydev = dev.priv.phydev ∧
    (tse_set_msglevel dev d).priv.msg_enable = d ∧
    (tse_get_msglevel dev).2 = dev ∧
    tse_set_msglevel (tse_set_msglevel dev d0) d = tse_set_msglevel dev d := by
  have hmod : d % 4294967296 = d := Nat.mod_eq_of_lt (by simpa using hd)
  simp [tse_get_msglevel, tse_set_msglevel, netdev_priv, hmod]

/-- Witness of C7: level 3 replaced by the largest 32-bit value. -/
theorem tse_msglevel_round_trip_witness :
    4294967295 < 2 ^ 32 ∧
    (tse_get_msglevel (tse_set_msglevel dev_with_phy 4294967295)).1 = 4294967295 :=
  ⟨by decide, (tse_msglevel_round_trip dev_with_phy 4294967295 8 (by decide)).1⟩

/-! ## Stores and register words -/

/-- Reading a cell after a store. -/
theorem store_mem (w : Nat) (b : out_buf) (i v j : Nat) :
    (b.store w i v).mem j = if j = i then v % 2 ^ w else b.mem j := rfl

/-- The store log after a store. -/
theorem store_writes (w : Nat) (b : out_buf) (i v : Nat) :
    (b.store w i v).writes = b.writes ++ [i] := rfl

/-- A word read from a register is below `2 ^ 32`. -/
theorem ioread32_lt (io : Nat → Nat) (addr : Nat) : ioread32 io addr < 2 ^ 32 :=
  Nat.mod_lt _ (by decide)

/-- A register value is below `2 ^ 32`. -/
theorem read_mac_lt (off : altera_tse_mac → Nat) (io : Nat → Nat) (mac : Nat)
    (f : altera_tse_mac) : read_mac off io mac f < 2 ^ 32 :=
  ioread32_lt io _

/-- Storing a register value in a `u64` cell keeps it. -/
theorem read_mac_mod (off : altera_tse_mac → Nat) (io : Nat → Nat) (mac : Nat)
    (f : altera_tse_mac) : read_mac off io mac f % 2 ^ 64 = read_mac off io mac f :=
  Nat.mod_eq_of_lt (Nat.lt_trans (read_mac_lt off io mac f) (by norm_num))

/-- Shifting a 32-bit word into the upper half of a `u64` and or-ing a 32-bit word into
the lower half is the concatenation of the two words. -/
theorem concat_words (a b : Nat) (ha : a < 2 ^ 32) (hb : b < 2 ^ 32) :
    (a <<< 32) % 2 ^ 64 ||| b = a * 2 ^ 32 + b := by
  have h1 : a <<< 32 = 2 ^ 32 * a := by rw [Nat.shiftLeft_eq, Nat.mul_comm]
  have h2 : 2 ^ 32 * a < 2 ^ 64 := by omega
  rw [h1, Nat.mod_eq_of_lt h2, ← Nat.mul_add_lt_is_or hb, Nat.mul_comm]

/-- The extended counter built from two registers, as stored in a `u64` cell. -/
theorem ext_counter (off : altera_tse_mac → Nat) (io : Nat → Nat) (mac : Nat)
    (m l : altera_tse_mac) :
    (read_mac off io mac m <<< 32 % 2 ^ 64 ||| read_mac off io mac l) % 2 ^ 64 =
      read_mac off io mac m * 2 ^ 32 + read_mac off io mac l := by
  have hm := read_mac_lt off io mac m
  have hl := read_mac_lt off io mac l
  rw [concat_words _ _ hm hl]
  omega

/-! ## Statistics -/

/-- C4: the three extended counters stored by `tse_fill_stats` are the concatenation
`msb * 2 ^ 32 + lsb` of their two registers; the upper 32 bits of the cell are the
`msb` register and the lower 32 bits the `lsb` register. -/
theorem tse_fill_stats_extended {φ : Type} (off : altera_tse_mac → Nat) (io : Nat → Nat)
    (dev : net_device φ) (buf : out_buf) :
    ((tse_fill_stats off io dev buf).mem 4 =
        read_mac off io dev.priv.mac_dev .msb_octets_transmitted_ok * 2 ^ 32 +
          read_mac off io dev.priv.mac_dev .octets_transmitted_ok ∧
      (tse_fill_stats off io dev buf).mem 4 / 2 ^ 32 =
        read_mac off io dev.priv.mac_dev .msb_octets_transmitted_ok ∧
      (tse_fill_stats off io dev buf).mem 4 % 2 ^ 32 =
        read_mac off io dev.priv.mac_dev .octets_transmitted_ok) ∧
    ((tse_fill_stats off io dev buf).mem 5 =
        read_mac off io dev.priv.mac_dev .msb_octets_received_ok * 2 ^ 32 +
          read_mac off io dev.priv.mac_dev .octets_received_ok ∧
      (tse_fill_stats off io dev buf).mem 5 / 2 ^ 32 =
        read_mac off io dev.priv.mac_dev .msb_octets_received_ok ∧
      (tse_fill_stats off io dev buf).mem 5 % 2 ^ 32 =
        read_mac off io dev.priv.mac_dev .octets_received_ok) ∧
    ((tse_fill_stats off io dev buf).mem 18 =
        read_mac off io dev.priv.mac_dev .msb_ether_stats_octets * 2 ^ 32 +
          read_mac off io dev.priv.mac_dev .ether_stats_octets ∧
      (tse_fill_stats off io dev buf).mem 18 / 2 ^ 32 =
        read_mac off io dev.priv.mac_dev .msb_ether_stats_octets ∧
      (tse_fill_stats off io dev buf).mem 18 % 2 ^ 32 =
        read_mac off io dev.priv.mac_dev .ether_stats_octets) := by
  have e4 : (tse_fill_stats off io dev buf).mem 4 =
      read_mac off io dev.priv.mac_dev .msb_octets_transmitted_ok * 2 ^ 32 +
        read_mac off io dev.priv.mac_dev .octets_transmitted_ok := by
    unfold tse_fill_stats
    simp only [store_mem, netdev_priv, ext_counter]
    rfl
  have e5 : (tse_fill_stats off io dev buf).mem 5 =
      read_mac off io dev.priv.mac_dev .msb_octets_received_ok * 2 ^ 32 +
        read_mac off io dev.priv.mac_dev .octets_received_ok := by
    unfold tse_fill_stats
    simp only [store_mem, netdev_priv, ext_counter]
    rfl
  have e18 : (tse_fill_stats off io dev buf).mem 18 =
      read_mac off io dev.priv.mac_dev .msb_ether_stats_octets * 2 ^ 32 +
        read_mac off io dev.priv.mac_dev .ether_stats_octets := by
    unfold tse_fill_stats
    simp only [store_mem, netdev_priv, ext_counter]
    rfl
  have b1 := read_mac_lt off io dev.priv.mac_dev .msb_octets_transmitted_ok
  have b2 := read_mac_lt off io dev.priv.mac_dev .octets_transmitted_ok
  have b3 := read_mac_lt off io dev.priv.mac_dev .msb_octets_received_ok
  have b4 := read_mac_lt off io dev.priv.mac_dev .octets_received_ok
  have b5 := read_mac_lt off io dev.priv.mac_dev .msb_ether_stats_octets
  have b6 := read_mac_lt off io dev.priv.mac_dev .ether_stats_octets
  rw [e4, e5, e18]
  refine ⟨⟨rfl, ?_, ?_⟩, ⟨rfl, ?_, ?_⟩, ⟨rfl, ?_, ?_⟩⟩ <;> omega

/-- Reading another cell after a store. -/
theorem store_mem_ne (w : Nat) (b : out_buf) (i v j : Nat) (h : j ≠ i) :
    (b.store w i v).mem j = b.mem j := by
  simp [store_mem, h]

/-- Reading the cell just stored to. -/
theorem store_mem_same (w : Nat) (b : out_buf) (i v : Nat) :
    (b.store w i v).mem i = v % 2 ^ w := by
  simp [store_mem]

/-- C10: `tse_fill_stats` stores to the indices 0, 1, ..., 30 once each, in this order,
and to no other; a buffer of `tse_sset_count(ETH_SS_STATS)` cells is filled and every
cell from 31 on keeps its content. Every cell other than 4, 5 and 18 is below `2 ^ 32`.
Paired with the names of `stat_gstrings`, the cells hold the registers listed. -/
theorem tse_fill_stats_table {φ : Type} (k : kernel_consts) (off : altera_tse_mac → Nat)
    (io : Nat → Nat) (dev : net_device φ) (buf : out_buf) :
    (tse_fill_stats off io dev buf).writes = buf.writes ++ List.range 31 ∧
    (tse_sset_count k dev k.ETH_SS_STATS).1 = ((List.range 31).length : Int) ∧
    stat_gstrings.length = (List.range 31).length ∧
    (∀ j, 31 ≤ j → (tse_fill_stats off io dev buf).mem j = buf.mem j) ∧
    (∀ i, i < 31 → i ≠ 4 → i ≠ 5 → i ≠ 18 →
      (tse_fill_stats off io dev buf).mem i < 2 ^ 32) ∧
    (List.range 31).map
        (fun i => (stat_gstrings.getD i "", (tse_fill_stats off io dev buf).mem i)) =
      [ ("tx_packets", read_mac off io dev.priv.mac_dev .frames_transmitted_ok),
        ("rx_packets", read_mac off io dev.priv.mac_dev .frames_received_ok),
        ("rx_crc_errors", read_mac off io dev.priv.mac_dev .frames_check_sequence_errors),
        ("rx_align_errors", read_mac off io dev.priv.mac_dev .alignment_errors),
        ("tx_bytes",
          read_mac off io dev.priv.mac_dev .msb_octets_transmitted_ok * 2 ^ 32 +
            read_mac off io dev.priv.mac_dev .octets_transmitted_ok),
        ("rx_bytes",
          read_mac off io dev.priv.mac_dev .msb_octets_received_ok * 2 ^ 32 +
            read_mac off io dev.priv.mac_dev .octets_received_ok),
        ("tx_pause", read_mac off io dev.priv.mac_dev .tx_pause_mac_ctrl_frames),
        ("rx_pause", read_mac off io dev.priv.mac_dev .rx_pause_mac_ctrl_frames),
        ("rx_errors", read_mac off io dev.priv.mac_dev .if_in_errors),
        ("tx_errors", read_mac off io dev.priv.mac_dev .if_out_errors),
        ("rx_unicast", read_mac off io dev.priv.mac_dev .if_in_ucast_pkts),
        ("rx_multicast", read_mac off io dev.priv.mac_dev .if_in_multicast_pkts),
        ("rx_broadcast", read_mac off io dev.priv.mac_dev .if_in_broadcast_pkts),
        ("tx_discards", read_mac off io dev.priv.mac_dev .if_out_discards),
        ("tx_unicast", read_mac off io dev.priv.mac_dev .if_out_ucast_pkts),
        ("tx_multicast", read_mac off io dev.priv.mac_dev .if_out_multicast_pkts),
        ("tx_broadcast", read_mac off io dev.priv.mac_dev .if_out_broadcast_pkts),
        ("ether_drops", read_mac off io dev.priv.mac_dev .ether_stats_drop_events),
        ("rx_total_bytes",
          read_mac off io dev.priv.mac_dev .msb_ether_stats_octets * 2 ^ 32 +
            read_mac off io dev.priv.mac_dev .ether_stats_octets),
        ("rx_total_packets", read_mac off io dev.priv.mac_dev .ether_stats_pkts),
        ("rx_undersize", read_mac off io dev.priv.mac_dev .ether_stats_undersize_pkts),
        ("rx_oversize", read_mac off io dev.priv.mac_dev .ether_stats_oversize_pkts),
        ("rx_64_bytes", read_mac off io dev.priv.mac_dev .ether_stats_pkts_64_octets),
        ("rx_65_127_bytes",
          read_mac off io dev.priv.mac_dev .ether_stats_pkts_65to127_octets),
        ("rx_128_255_bytes",
          read_mac off io dev.priv.mac_dev .ether_stats_pkts_128to255_octets),
        ("rx_256_511_bytes",
          read_mac off io dev.priv.mac_dev .ether_stats_pkts_256to511_octets),
        ("rx_512_1023_bytes",
          read_mac off io dev.priv.mac_dev .ether_stats_pkts_512to1023_octets),
        ("rx_1024_1518_bytes",
          read_mac off io dev.priv.mac_dev .ether_stats_pkts_1024to1518_octets),
        ("rx_gte_1519_bytes",
          read_mac off io dev.priv.mac_dev .ether_stats_pkts_1519tox_octets),
        ("rx_jabbers", read_mac off io dev.priv.mac_dev .ether_stats_jabbers),
        ("rx_runts", read_mac off io dev.priv.mac_dev .ether_stats_fragments) ] := by
  have htab : ∀ f, read_mac off io dev.priv.mac_dev f % 2 ^ 64 =
      read_mac off io dev.priv.mac_dev f := read_mac_mod off io dev.priv.mac_dev
  have hext := ext_counter off io dev.priv.mac_dev
  have hlt := read_mac_lt off io dev.priv.mac_dev
  refine ⟨?_, ?_, ?_, ?_, ?_, ?_⟩
  · unfold tse_fill_stats
    simp only [store_writes, List.append_assoc]
    rfl
  · simp [tse_sset_count, TSE_STATS_LEN]
  · rfl
  · intro j hj
    unfold tse_fill_stats
    simp only [store_mem]
    repeat rw [if_neg (by omega)]
  · intro i hi h4 h5 h18
    unfold tse_fill_stats
    interval_cases i <;>
      first
      | exact absurd rfl h4
      | exact absurd rfl h5
      | exact absurd rfl h18
      | (simp (disch := decide) only [store_mem_ne, store_mem_same, netdev_priv, htab]
         exact hlt _)
  · have hr : List.range 31 = [0, 1, 2, 3, 4, 5, 6, 7, 8, 9, 10, 11, 12, 13, 14, 15, 16,
        17, 18, 19, 20, 21, 22, 23, 24, 25, 26, 27, 28, 29, 30] := by decide
    rw [hr]
    unfold tse_fill_stats
    simp (disch := decide) only [List.map, store_mem_ne, store_mem_same, netdev_priv, htab,
      hext]
    rfl

/-! ## Register dump -/

/-- The loop of `tse_get_regs` entered at `i` with `n` registers left: it ends with the
counter at `TSE_NUM_REGS`, has stored to `i, i + 1, ...` in this order, each cell
holding the register word of its index, and has left every other cell alone. -/
theorem tse_get_regs_loop_spec (io : Nat → Nat) (base : Nat) :
    ∀ (n i : Nat) (buf : out_buf), i + n = TSE_NUM_REGS →
      (tse_get_regs_loop io base i buf).1 = TSE_NUM_REGS ∧
      (tse_get_regs_loop io base i buf).2.writes = buf.writes ++ List.range' i n ∧
      ∀ j, (tse_get_regs_loop io base i buf).2.mem j =
        if i ≤ j ∧ j < TSE_NUM_REGS then ioread32 io (base + sizeof_u32 * j)
        else buf.mem j := by
  intro n
  induction n with
  | zero =>
    intro i buf h
    have hi : ¬ i < TSE_NUM_REGS := by omega
    rw [tse_get_regs_loop, if_neg hi]
    refine ⟨by omega, by simp, ?_⟩
    intro j
    have : ¬ (i ≤ j ∧ j < TSE_NUM_REGS) := by omega
    simp [this]
  | succ n ih =>
    intro i buf h
    have hi : i < TSE_NUM_REGS := by omega
    rw [tse_get_regs_loop, if_pos hi]
    obtain ⟨h1, h2, h3⟩ := ih (i + 1)
      (buf.store 32 i (ioread32 io (base + sizeof_u32 * i))) (by omega)
    refine ⟨h1, ?_, ?_⟩
    · rw [h2, store_writes, List.append_assoc]
      rfl
    · intro j
      rw [h3, store_mem]
      have hw : ioread32 io (base + sizeof_u32 * i) % 2 ^ 32 =
          ioread32 io (base + sizeof_u32 * i) := Nat.mod_eq_of_lt (ioread32_lt io _)
      by_cases hj : j = i
      · subst hj
        rw [if_neg (by omega), if_pos rfl, hw, if_pos ⟨Nat.le_refl _, hi⟩]
      · by_cases hlt : i + 1 ≤ j ∧ j < TSE_NUM_REGS
        · rw [if_pos hlt, if_pos ⟨by omega, hlt.2⟩]
        · rw [if_neg hlt, if_neg hj, if_neg (by omega)]

/-- C8: `tse_reglen` is 512, four bytes for each of the `TSE_NUM_REGS` registers, on
every device; `tse_get_regs` ends with its counter at 128 after 128 stores, to the
indices 0, 1, ..., 127 in this order; cell `i < 128` then holds the register word at
byte offset `4 * i` from the MAC base, and every cell from 128 on keeps its content. -/
theorem tse_get_regs_dump {φ : Type} (io : Nat → Nat) (dev : net_device φ)
    (regbuf : out_buf) :
    tse_reglen dev = 512 ∧
    tse_reglen dev = ((TSE_NUM_REGS * 4 : Nat) : Int) ∧
    (tse_get_regs io dev regbuf).1 = 128 ∧
    (tse_get_regs io dev regbuf).2.writes = regbuf.writes ++ List.range 128 ∧
    ((tse_get_regs io dev regbuf).2.writes.length = regbuf.writes.length + 128) ∧
    (∀ i, i < 128 →
      (tse_get_regs io dev regbuf).2.mem i = ioread32 io (dev.priv.mac_dev + 4 * i)) ∧
    (∀ i, 128 ≤ i → (tse_get_regs io dev regbuf).2.mem i = regbuf.mem i) := by
  obtain ⟨h1, h2, h3⟩ :=
    tse_get_regs_loop_spec io dev.priv.mac_dev TSE_NUM_REGS 0 regbuf (by simp)
  have e : tse_get_regs io dev regbuf = tse_get_regs_loop io dev.priv.mac_dev 0 regbuf := rfl
  have hlen : tse_reglen dev = 512 := by
    show to_int (TSE_NUM_REGS * sizeof_u32) = 512
    decide
  rw [e, h1, h2, hlen]
  refine ⟨rfl, by decide, rfl, ?_, ?_, ?_, ?_⟩
  · rw [List.range_eq_range']
    rfl
  · simp [TSE_NUM_REGS]
  · intro i hi
    rw [h3]
    rw [if_pos ⟨Nat.zero_le _, hi⟩]
    rfl
  · intro i hi
    rw [h3]
    have hn : ¬ (0 ≤ i ∧ i < TSE_NUM_REGS) := by
      simp only [TSE_NUM_REGS]
      omega
    rw [if_neg hn]

/-! ## Statistic names -/

/-- In the concatenation of rows of length `L`, byte `L * i + j` is byte `j` of row
`i`. -/
theorem flatten_rows_getD (L : Nat) :
    ∀ (rows : List (List Nat)), (∀ r ∈ rows, r.length = L) →
      ∀ (i j : Nat) (hi : i < rows.length), j < L →
        rows.flatten.getD (L * i + j) 0 = (rows.get ⟨i, hi⟩).getD j 0 := by
  intro rows
  induction rows with
  | nil => intro _ i j hi; exact absurd hi (Nat.not_lt_zero _)
  | cons r rs ih =>
    intro hrows i j hi hj
    have hr : r.length = L := hrows r (List.mem_cons_self _ _)
    rw [List.flatten_cons]
    cases i with
    | zero =>
      rw [Nat.mul_zero, Nat.zero_add, List.getD_append _ _ _ _ (by omega)]
      rfl
    | succ i =>
      have hge : r.length ≤ L * (i + 1) + j := by
        rw [hr, Nat.mul_succ]
        omega
      have hsub : L * (i + 1) + j - r.length = L * i + j := by
        rw [hr, Nat.mul_succ]
        omega
      rw [List.getD_append_right _ _ _ _ hge, hsub]
      exact ih (fun r hr => hrows r (List.mem_cons_of_mem _ hr)) i j
        (Nat.lt_of_succ_lt_succ hi) hj

/-- Every row of the table is `ETH_GSTRING_LEN` bytes long. -/
theorem stat_gstrings_rows_length :
    ∀ r ∈ stat_gstrings.map gstring_row, r.length = ETH_GSTRING_LEN := by
  decide

/-- The concatenation of `k` rows of length `L` is `k * L` bytes long. -/
theorem flatten_rows_length (L : Nat) :
    ∀ (rows : List (List Nat)), (∀ r ∈ rows, r.length = L) →
      rows.flatten.length = rows.length * L := by
  intro rows
  induction rows with
  | nil => intro _; simp
  | cons r rs ih =>
    intro hrows
    rw [List.flatten_cons, List.length_append, hrows r (List.mem_cons_self _ _),
      ih (fun x hx => hrows x (List.mem_cons_of_mem _ hx)), List.length_cons,
      Nat.succ_mul, Nat.add_comm]

/-- Every character of every name is a single byte. -/
theorem stat_gstrings_ascii :
    ∀ s ∈ stat_gstrings, ∀ c ∈ s.toList, c.toNat < 256 := by
  decide

/-- Byte `j` of the row initialised with `s`: a character of `s`, or zero past them. -/
theorem gstring_row_getD (s : String) (j : Nat) (hs : s.length ≤ ETH_GSTRING_LEN)
    (hj : j < ETH_GSTRING_LEN) :
    (gstring_row s).getD j 0 =
      if j < s.length then (s.toList.getD j default).toNat else 0 := by
  unfold gstring_row
  by_cases h : j < s.length
  · have hl : j < (s.toList.map Char.toNat).length := by
      rw [List.length_map]
      exact h
    have h2 : j < s.toList.length := h
    rw [if_pos h, List.getD_append _ _ _ _ hl, List.getD_eq_getElem _ _ hl,
      List.getD_eq_getElem s.toList default h2, List.getElem_map]
  · have hl : (s.toList.map Char.toNat).length ≤ j := by
      rw [List.length_map]
      exact Nat.le_of_not_lt h
    rw [if_neg h, List.getD_append_right _ _ _ _ hl, List.getD_eq_getElem]
    · simp
    · rw [List.length_map, List.length_replicate]
      have : s.toList.length = s.length := rfl
      omega

/-- C5: `stat_gstrings` has 31 entries, as many as `TSE_STATS_LEN`, pairwise distinct,
each shorter than `ETH_GSTRING_LEN`, beginning `tx_packets, rx_packets, rx_crc_errors,
rx_align_errors, tx_bytes, rx_bytes` and ending `rx_jabbers, rx_runts`; the object is
`31 * ETH_GSTRING_LEN` bytes long. Whatever the
string set asked for, `tse_gstrings` stores to the bytes `0 .. 31 * ETH_GSTRING_LEN - 1`
once each and to no other, and the slot at offset `ETH_GSTRING_LEN * i` then holds the
characters of name `i` followed by zero bytes. -/
theorem tse_gstrings_table {φ : Type} (dev : net_device φ) (stringset : Nat)
    (buf : out_buf) :
    stat_gstrings.length = 31 ∧
    stat_gstrings.length = TSE_STATS_LEN ∧
    stat_gstrings.Nodup ∧
    (∀ s ∈ stat_gstrings, s.length < ETH_GSTRING_LEN) ∧
    stat_gstrings.take 6 =
      ["tx_packets", "rx_packets", "rx_crc_errors", "rx_align_errors", "tx_bytes",
        "rx_bytes"] ∧
    stat_gstrings.drop 29 = ["rx_jabbers", "rx_runts"] ∧
    stat_gstrings_bytes.length = 31 * ETH_GSTRING_LEN ∧
    (tse_gstrings dev stringset buf).writes =
      buf.writes ++ List.range (31 * ETH_GSTRING_LEN) ∧
    (∀ j, 31 * ETH_GSTRING_LEN ≤ j → (tse_gstrings dev stringset buf).mem j = buf.mem j) ∧
    (∀ (i : Nat) (hi : i < stat_gstrings.length) (j : Nat), j < ETH_GSTRING_LEN →
      (tse_gstrings dev stringset buf).mem (ETH_GSTRING_LEN * i + j) =
        if j < (stat_gstrings.get ⟨i, hi⟩).length then
          ((stat_gstrings.get ⟨i, hi⟩).toList.getD j default).toNat
        else 0) := by
  refine ⟨by decide, by decide, by decide, by decide, by decide, by decide,
    flatten_rows_length ETH_GSTRING_LEN _ stat_gstrings_rows_length, rfl, ?_, ?_⟩
  · intro j hj
    have hn : ¬ j < TSE_STATS_LEN * ETH_GSTRING_LEN := by
      simp only [TSE_STATS_LEN]
      omega
    show (if j < TSE_STATS_LEN * ETH_GSTRING_LEN then _ else buf.mem j) = buf.mem j
    rw [if_neg hn]
  · intro i hi j hj
    have hlen : stat_gstrings.length = 31 := by decide
    have hin : ETH_GSTRING_LEN * i + j < TSE_STATS_LEN * ETH_GSTRING_LEN := by
      simp only [TSE_STATS_LEN, ETH_GSTRING_LEN] at *
      omega
    have hi2 : i < (stat_gstrings.map gstring_row).length := by
      rw [List.length_map]
      exact hi
    have hrow : (stat_gstrings.map gstring_row).get ⟨i, hi2⟩ =
        gstring_row (stat_gstrings.get ⟨i, hi⟩) := by
      simp
    have hmem : stat_gstrings.get ⟨i, hi⟩ ∈ stat_gstrings := List.get_mem _ _ _
    have hshort : (stat_gstrings.get ⟨i, hi⟩).length ≤ ETH_GSTRING_LEN :=
      Nat.le_of_lt ((by decide : ∀ s ∈ stat_gstrings, s.length < ETH_GSTRING_LEN) _ hmem)
    show (if ETH_GSTRING_LEN * i + j < TSE_STATS_LEN * ETH_GSTRING_LEN then
        stat_gstrings_bytes.getD (ETH_GSTRING_LEN * i + j) 0 % 2 ^ 8 else _) = _
    rw [if_pos hin]
    unfold stat_gstrings_bytes
    rw [flatten_rows_getD ETH_GSTRING_LEN _ stat_gstrings_rows_length i j hi2 hj, hrow,
      gstring_row_getD _ j hshort hj]
    by_cases h : j < (stat_gstrings.get ⟨i, hi⟩).length
    · rw [if_pos h]
      have h2 : j < (stat_gstrings.get ⟨i, hi⟩).toList.length := h
      have hc : (stat_gstrings.get ⟨i, hi⟩).toList.getD j default ∈
          (stat_gstrings.get ⟨i, hi⟩).toList := by
        rw [List.getD_eq_getElem _ _ h2]
        exact List.getElem_mem _
      exact Nat.mod_eq_of_lt (stat_gstrings_ascii _ hmem _ hc)
    · rw [if_neg h]
      exact Nat.zero_mod _

/-! ## Driver information -/

/-- Masking with `0xFFFF` keeps the low 16 bits. -/
theorem and_low_mask (rev : Nat) : rev &&& 0xFFFF = rev % 2 ^ 16 :=
  Nat.and_pow_two_sub_one_eq_mod rev 16

/-- Masking a 32-bit word with `0xFFFF0000` and shifting right by 16 gives its high 16
bits. -/
theorem and_high_mask_shift (rev : Nat) (h : rev < 2 ^ 32) :
    (rev &&& 0xFFFF0000) >>> 16 = rev / 2 ^ 16 := by
  rw [← Nat.shiftRight_eq_div_pow]
  apply Nat.eq_of_testBit_eq
  intro i
  rw [Nat.testBit_shiftRight, Nat.testBit_shiftRight, Nat.testBit_and]
  by_cases hi : i < 16
  · have hm : Nat.testBit 0xFFFF0000 (16 + i) = true := by
      interval_cases i <;> decide
    rw [hm, Bool.and_true]
  · have hlt : rev < 2 ^ (16 + i) :=
      Nat.lt_of_lt_of_le h (Nat.pow_le_pow_right (by decide) (by omega))
    rw [Nat.testBit_lt_two_pow hlt, Bool.false_and]

/-- A 16-bit argument is printed by `%d` as its decimal digits, at most five. -/
theorem fmt_d_short (v : Nat) (h : v < 2 ^ 16) :
    fmt_d v = Nat.toDigits 10 v ∧ (fmt_d v).length ≤ 5 := by
  have hm : v % 2 ^ 32 = v := Nat.mod_eq_of_lt (by omega)
  have hs : v % 2 ^ 32 < 2 ^ 31 := by omega
  have e : fmt_d v = Nat.toDigits 10 v := by
    unfold fmt_d
    rw [if_pos hs, hm]
  refine ⟨e, ?_⟩
  rw [e]
  exact Nat.toDigitsCore_length 10 (by decide) (v + 1) v 5 (by omega) (by decide)

/-- C9: for whatever 32-bit word the `megacore_revision` register holds,
`tse_get_drvinfo` reports the driver `Altera TSE MAC IP Driver`, the version `v8.0`,
the bus `platform`, and as firmware version `v`, the decimal digits of the low 16 bits,
a dot, and the decimal digits of the high 16 bits. That text has at most 12 characters,
so it is stored whole, and every text with its NUL fits its 32-byte field. -/
theorem tse_get_drvinfo_report {φ : Type} (off : altera_tse_mac → Nat) (io : Nat → Nat)
    (dev : net_device φ) (info : ethtool_drvinfo) :
    (tse_get_drvinfo off io dev info).driver = "Altera TSE MAC IP Driver".toList ∧
    (tse_get_drvinfo off io dev info).version = "v8.0".toList ∧
    (tse_get_drvinfo off io dev info).bus_info = "platform".toList ∧
    (tse_get_drvinfo off io dev info).fw_version =
      "v".toList ++
        Nat.toDigits 10 (read_mac off io dev.priv.mac_dev .megacore_revision % 2 ^ 16) ++
        ".".toList ++
        Nat.toDigits 10 (read_mac off io dev.priv.mac_dev .megacore_revision / 2 ^ 16) ∧
    (tse_get_drvinfo off io dev info).fw_version.length ≤ 12 ∧
    (tse_get_drvinfo off io dev info).fw_version.length + 1 ≤ ETHTOOL_FWVERS_LEN ∧
    (tse_get_drvinfo off io dev info).driver.length + 1 ≤ DRVINFO_FIELD_LEN ∧
    (tse_get_drvinfo off io dev info).version.length + 1 ≤ DRVINFO_FIELD_LEN ∧
    (tse_get_drvinfo off io dev info).bus_info.length + 1 ≤ DRVINFO_FIELD_LEN := by
  have hrev := read_mac_lt off io dev.priv.mac_dev .megacore_revision
  have hlo : read_mac off io dev.priv.mac_dev .megacore_revision % 2 ^ 16 < 2 ^ 16 :=
    Nat.mod_lt _ (by decide)
  have hhi : read_mac off io dev.priv.mac_dev .megacore_revision / 2 ^ 16 < 2 ^ 16 := by
    omega
  obtain ⟨e1, l1⟩ := fmt_d_short _ hlo
  obtain ⟨e2, l2⟩ := fmt_d_short _ hhi
  have hlen : ("v".toList ++
      fmt_d (read_mac off io dev.priv.mac_dev .megacore_revision % 2 ^ 16) ++
      ".".toList ++
      fmt_d (read_mac off io dev.priv.mac_dev .megacore_revision / 2 ^ 16)).length ≤ 12 := by
    simp only [List.length_append]
    have : "v".toList.length = 1 := rfl
    have : ".".toList.length = 1 := rfl
    omega
  have hfw : (tse_get_drvinfo off io dev info).fw_version =
      "v".toList ++
        fmt_d (read_mac off io dev.priv.mac_dev .megacore_revision % 2 ^ 16) ++
        ".".toList ++
        fmt_d (read_mac off io dev.priv.mac_dev .megacore_revision / 2 ^ 16) := by
    show snprintf ETHTOOL_FWVERS_LEN
      ("v".toList ++
        fmt_d (read_mac off io dev.priv.mac_dev .megacore_revision &&& 0xFFFF) ++
        ".".toList ++
        fmt_d ((read_mac off io dev.priv.mac_dev .megacore_revision &&& 0xFFFF0000) >>>
          16)) = _
    rw [and_low_mask, and_high_mask_shift _ hrev]
    unfold snprintf
    apply List.take_of_length_le
    have : ETHTOOL_FWVERS_LEN - 1 = 31 := rfl
    omega
  have hd : "Altera TSE MAC IP Driver".toList.length + 1 ≤ DRVINFO_FIELD_LEN := by decide
  have hv : "v8.0".toList.length + 1 ≤ DRVINFO_FIELD_LEN := by decide
  have hb : "platform".toList.length + 1 ≤ DRVINFO_FIELD_LEN := by decide
  refine ⟨rfl, rfl, rfl, ?_, ?_, ?_, hd, hv, hb⟩
  · rw [hfw, e1, e2]
  · rw [hfw]
    exact hlen
  · rw [hfw]
    have : ETHTOOL_FWVERS_LEN = 32 := rfl
    omega

/-! ## Worked examples -/

/-- Revision word `0x000D0008` is reported as `v8.13`: low half first. -/
theorem drvinfo_example :
    (tse_get_drvinfo (fun _ => 0) (fun _ => 0x000D0008) dev_no_phy
      { driver := [], version := [], fw_version := [], bus_info := [] }).fw_version =
      "v8.13".toList := by
  decide

/-- The longest firmware text, for the revision word `0xFFFFFFFF`. -/
theorem drvinfo_longest_example :
    (tse_get_drvinfo (fun _ => 0) (fun _ => 0xFFFFFFFF) dev_no_phy
      { driver := [], version := [], fw_version := [], bus_info := [] }).fw_version =
      "v65535.65535".toList := by
  decide

/-- With every register reading its own address, `tx_bytes` is built from the registers
at offsets 8 (upper) and 4 (lower) of a MAC at address 4096. -/
theorem fill_stats_example :
    (tse_fill_stats
      (fun f => if f = .msb_octets_transmitted_ok then 8 else
        if f = .octets_transmitted_ok then 4 else 0)
      (fun a => a) dev_no_phy { mem := fun _ => 0, writes := [] }).mem 4 =
      4104 * 2 ^ 32 + 4100 := by
  decide

/-- The conversion to `int` wraps at `2 ^ 31`. -/
theorem to_int_example : to_int 512 = 512 ∧ to_int (2 ^ 32 - 1) = -1 := by
  decide

/-- The second name slot starts with `rx_packets` and a NUL. -/
theorem gstrings_example :
    (List.range 11).map
        (fun j => (tse_gstrings dev_no_phy 1 { mem := fun _ => 255, writes := [] }).mem
          (32 + j)) =
      [114, 120, 95, 112, 97, 99, 107, 101, 116, 115, 0] := by
  decide

/-- With every register reading its own address, the last dumped word of a MAC at
address 4096 is the one at byte offset 508, and the loop leaves cell 128 alone. -/
theorem get_regs_example :
    (tse_get_regs (fun a => a) dev_no_phy { mem := fun _ => 7, writes := [] }).2.mem 127 =
      4604 ∧
    (tse_get_regs (fun a => a) dev_no_phy { mem := fun _ => 7, writes := [] }).2.mem 128 =
      7 := by
  have h := (tse_get_regs_loop_spec (fun a => a) 4096 TSE_NUM_REGS 0
    { mem := fun _ => 7, writes := [] } (by decide)).2.2
  exact ⟨(h 127).trans (by decide), (h 128).trans (by decide)⟩

end AlteraTse
